import Mathlib

/-!
Shallow embedding of the headers-predictor notebook.

Python strings are modelled as lists of characters (ASCII case folding and
ASCII digits, matching the data the notebook processes).  Rational numbers
stand for Python floats: every quantity the notebook computes with these
operations is an exact ratio of machine integers, so the embedding is exact.
Fallible computations return Option: none models a raised Python exception
where the doc comment says so, and the NaN missing-value sentinel where the
doc comment says so.
-/

/-- Python str.isspace characters, the separators used by str.split with no
argument. -/
def pyIsSpace (c : Char) : Bool :=
  c = ' ' || c = '\t' || c = '\n' || c = '\x0b' || c = '\x0c' || c = '\r'

/-- PUNCT_PATTERN from the notebook: the characters translated to spaces. -/
def punctList : List Char := ['-', '/', '(', ')', ':', '.', ',', ';']

/-- punct_remover translation table: each punctuation character of
PUNCT_PATTERN maps to a space, every other character is unchanged. -/
def punctRemove (c : Char) : Char := if c ∈ punctList then ' ' else c

/-- One step of the right fold implementing str.split: a whitespace
character opens a new (so far empty) piece, any other character is prepended
to the current piece. -/
def splitStep (c : Char) (acc : List (List Char)) : List (List Char) :=
  if pyIsSpace c then [] :: acc
  else
    match acc with
    | [] => [[c]]
    | t :: ts => (c :: t) :: ts

/-- All pieces of the whitespace split, empty pieces included. -/
def pySplitAll (s : List Char) : List (List Char) := s.foldr splitStep [[]]

/-- Python str.split with no separator: split on runs of whitespace and drop
empty pieces. -/
def pySplit (s : List Char) : List (List Char) :=
  (pySplitAll s).filter (fun t => !t.isEmpty)

/-- Python re.search of a digit in y: y contains a decimal digit. -/
def hasDigit (y : List Char) : Bool := y.any Char.isDigit

/-- words_from_values from the notebook: lower-case each value, translate the
punctuation set to spaces, split on whitespace, flatten, and keep the tokens
that are nonempty and contain no digit. -/
def words_from_values (values : List (List Char)) : List (List Char) :=
  ((values.map
      (fun x => pySplit ((x.map Char.toLower).map punctRemove))).flatten).filter
    (fun y => !y.isEmpty && !hasDigit y)

/-- Row in the simplified data structure of the notebook: a list of value
strings plus the boolean label (the type field, true for HEADERS). -/
structure Row where
  values : List (List Char)
  type : Bool

/-- get_words from the notebook: all tokens extracted from all rows, in
order, duplicates retained. -/
def get_words (data : List Row) : List (List Char) :=
  (data.map (fun obj => words_from_values obj.values)).flatten

/-- words_counter from the notebook.  The division by the total token count
sits inside the dict comprehension, so it is evaluated once per distinct
word; none models a raised ZeroDivisionError at such an evaluation. -/
def words_counter (data : List Row) : Option (List (List Char × ℚ)) :=
  let words := get_words data
  (words.dedup).mapM (fun x =>
    if words.length = 0 then none
    else some (x, (words.count x : ℚ) / (words.length : ℚ)))

/-- words_counter with the division taken total (never reached at total
count zero, as proved below); used to state properties of the map. -/
def words_counter_map (data : List Row) : List (List Char × ℚ) :=
  let words := get_words data
  (words.dedup).map (fun x => (x, (words.count x : ℚ) / (words.length : ℚ)))

/-- Python dict.get with default 0, applied to a popularity or weight map. -/
def popGet (m : List (List Char × ℚ)) (w : List Char) : ℚ :=
  (m.lookup w).getD 0

/-- Body of the word_weights loop: the signed weight from the two looked-up
popularities. -/
def word_weight (h o : ℚ) : ℚ := (h - o) / (h + o)

/-- all_words from the notebook: the set of all distinct tokens extracted
from the full sampled dataset, modelled as the deduplicated token list. -/
def all_words (data : List Row) : List (List Char) := (get_words data).dedup

/-- Python x.replace with the dot, the empty string and count 1: remove the
first occurrence of a dot. -/
def removeFirstDot : List Char → List Char
  | [] => []
  | c :: cs => if c = '.' then cs else c :: removeFirstDot cs

/-- Python str.isdigit: nonempty and all characters are digits. -/
def pyIsDigitStr (x : List Char) : Bool := !x.isEmpty && x.all Char.isDigit

/-- Predicate of the floats_N feature: the value with its first dot removed
is all digits, and the value contains a dot. -/
def isFloatVal (x : List Char) : Bool :=
  pyIsDigitStr (removeFirstDot x) && x.contains '.'

/-- Predicate of the long_ints feature as written in the notebook: the value
with its first dot removed is all digits, and the original value is longer
than 4 characters. -/
def isLongIntVal (x : List Char) : Bool :=
  pyIsDigitStr (removeFirstDot x) && decide (4 < x.length)

/-- Sparsity ratio of the first feature loop. -/
def sparsityOf (values : List (List Char)) : ℚ :=
  (values.countP (fun v => v.isEmpty) : ℚ) / (values.length : ℚ)

/-- Float ratio of the first feature loop. -/
def floatRatioOf (values : List (List Char)) : ℚ :=
  (values.countP isFloatVal : ℚ) / (values.length : ℚ)

/-- Long-int ratio of the first feature loop. -/
def longIntRatioOf (values : List (List Char)) : ℚ :=
  (values.countP isLongIntVal : ℚ) / (values.length : ℚ)

/-- First feature loop of the notebook (sparsity, floats_N, long_ints).
none models the raise on an empty values array: np.vectorize on a size-0
input raises ValueError, and the sparsity division is 0/0.  There is no
length guard in this loop. -/
def firstFeatures (values : List (List Char)) : Option (ℚ × ℚ × ℚ) :=
  if values.length = 0 then none
  else some (sparsityOf values, floatRatioOf values, longIntRatioOf values)

/-- Modelled from the spec: long_int_ratio as the specification words it,
the fraction of values that are all-digit strings longer than 4 characters.
Stated only for comparison with longIntRatioOf, which embeds the code. -/
def longIntRatioSpec (values : List (List Char)) : ℚ :=
  (values.countP (fun x => pyIsDigitStr x && decide (4 < x.length)) : ℚ) /
    (values.length : ℚ)

/-- Arithmetic mean, as numpy mean on a nonempty array. -/
def listMean (l : List ℚ) : ℚ := l.sum / (l.length : ℚ)

/-- Maximum of a list, as numpy max on a nonempty array; the empty case is
never reached under the guard of the loop that uses it. -/
def listMax : List ℚ → ℚ
  | [] => 0
  | x :: xs => xs.foldl max x

/-- Population variance, as numpy var on a nonempty array.  numpy std is the
square root of this quantity; its definedness and NaN-ness coincide with
those of the variance, which is all the development states about it. -/
def listVar (l : List ℚ) : ℚ :=
  ((l.map (fun x => (x - listMean l) ^ 2)).sum) / (l.length : ℚ)

/-- Body of the word_weights_mean, word_weights_max and word_weights_std
loop: look up the weight (default 0) of every token of the row, and either
aggregate or, when the token list is empty, emit the np.nan sentinel, which
none models here. -/
def wordWeightFeatures (W : List (List Char × ℚ)) (values : List (List Char)) :
    Option (ℚ × ℚ × ℚ) :=
  let ws := (words_from_values values).map (fun word => popGet W word)
  if 0 < ws.length then some (listMean ws, listMax ws, listVar ws) else none

/-- Characters that the word-boundary assertion of the year regex treats as
word characters. -/
def isWordChar (c : Char) : Bool := c.isAlpha || c.isDigit || c = '_'

/-- Whether YEAR_PATTERN, a word-bounded 19 or 20 followed by two digits,
matches at the current scan position, whose first character is c1 and
remaining characters are cs; prev is the character before the position,
none at the start of the string. -/
def yearHere (prev : Option Char) (c1 : Char) (cs : List Char) : Bool :=
  match cs with
  | c2 :: c3 :: c4 :: rest =>
    (match prev with | none => true | some p => !isWordChar p)
      && ((c1 = '1' && c2 = '9') || (c1 = '2' && c2 = '0'))
      && c3.isDigit && c4.isDigit
      && (match rest with | [] => true | r :: _ => !isWordChar r)
  | _ => false

/-- Scanner for YEAR_PATTERN: the first argument is the number of still to
be skipped characters of a match already counted (matches do not overlap),
the second the character preceding the scan position. -/
def yearAux : Nat → Option Char → List Char → Nat
  | _, _, [] => 0
  | k+1, _, c :: cs => yearAux k (some c) cs
  | 0, prev, c :: cs =>
    if yearHere prev c cs then 1 + yearAux 3 (some c) cs
    else yearAux 0 (some c) cs

/-- Count of re.findall matches of YEAR_PATTERN: scan left to right, consume
four characters at a match, otherwise advance one. -/
def yearCount (s : List Char) : Nat := yearAux 0 none s

/-- Whether DDMM_PATTERN, two digits, a slash, two digits, matches at the
current scan position, whose first character is c1 and remaining characters
are cs. -/
def ddmmHere (c1 : Char) (cs : List Char) : Bool :=
  match cs with
  | c2 :: c3 :: c4 :: c5 :: _ =>
    c1.isDigit && c2.isDigit && c3 = '/' && c4.isDigit && c5.isDigit
  | _ => false

/-- Scanner for DDMM_PATTERN: the first argument is the number of still to
be skipped characters of a match already counted. -/
def ddmmAux : Nat → List Char → Nat
  | _, [] => 0
  | k+1, _ :: cs => ddmmAux k cs
  | 0, c :: cs =>
    if ddmmHere c cs then 1 + ddmmAux 4 cs else ddmmAux 0 cs

/-- Count of re.findall matches of DDMM_PATTERN: scan left to right, consume
five characters at a match, otherwise advance one. -/
def ddmmCount (s : List Char) : Nat := ddmmAux 0 s

/-- Body of the years_N and ddmm_N loop: join the values with spaces and
either divide each pattern count by the joined length or, when the joined
string is empty, emit the np.nan sentinel, which none models here. -/
def dateFeatures (values : List (List Char)) : Option (ℚ × ℚ) :=
  let s := List.intercalate [' '] values
  if 0 < s.length then
    some ((yearCount s : ℚ) / (s.length : ℚ),
          (ddmmCount s : ℚ) / (s.length : ℚ))
  else none

example : words_from_values ["Name".toList, "Age".toList, "1990".toList] =
    ["name".toList, "age".toList] := by decide

example : yearCount ("Report 1999 2001".toList) = 2 := by decide

example : ddmmCount ("12/05 other".toList) = 1 := by decide

example : isLongIntVal ("1.234".toList) = true := by decide

example : isLongIntVal ("1990".toList) = false := by decide

/-! Helper lemmas. -/

lemma mapM_option_some {α β : Type} (g : α → β) (l : List α) :
    l.mapM (fun a => some (g a)) = some (l.map g) := by
  induction l with
  | nil => rfl
  | cons a l ih => rw [List.mapM_cons, ih]; rfl

lemma words_counter_eq (data : List Row) :
    words_counter data = some (words_counter_map data) := by
  unfold words_counter words_counter_map
  by_cases hw : get_words data = []
  · simp only [hw]
    rfl
  · have hlen : (get_words data).length ≠ 0 := by
      simpa [List.length_eq_zero] using hw
    have hfun : (fun x => if (get_words data).length = 0 then none
          else some (x, ((get_words data).count x : ℚ) /
            ((get_words data).length : ℚ))) =
        (fun x => some (x, ((get_words data).count x : ℚ) /
            ((get_words data).length : ℚ))) := by
      funext x
      simp [hlen]
    simp only [hfun]
    exact mapM_option_some _ _

lemma lookup_map_pair (g : List Char → ℚ) (l : List (List Char)) (w : List Char) :
    (l.map (fun a => (a, g a))).lookup w = if w ∈ l then some (g w) else none := by
  induction l with
  | nil => simp
  | cons a l ih =>
    by_cases hw : w = a
    · subst hw
      simp [List.lookup]
    · have hba : (w == a) = false := by simp [hw]
      simp [List.lookup, hba, ih, List.mem_cons, hw]

lemma popGet_wcm (data : List Row) (w : List Char) :
    popGet (words_counter_map data) w =
      if w ∈ get_words data then
        ((get_words data).count w : ℚ) / ((get_words data).length : ℚ)
      else 0 := by
  unfold popGet words_counter_map
  rw [lookup_map_pair]
  by_cases hw : w ∈ get_words data
  · simp [List.mem_dedup, hw]
  · simp [List.mem_dedup, hw]

lemma popGet_nonneg (data : List Row) (w : List Char) :
    0 ≤ popGet (words_counter_map data) w := by
  rw [popGet_wcm]
  split
  · exact div_nonneg (by positivity) (by positivity)
  · exact le_refl 0

lemma popGet_pos_iff (data : List Row) (w : List Char) :
    0 < popGet (words_counter_map data) w ↔ w ∈ get_words data := by
  rw [popGet_wcm]
  by_cases hw : w ∈ get_words data
  · have hc : 0 < (get_words data).count w := List.count_pos_iff.mpr hw
    have hl : 0 < (get_words data).length :=
      List.length_pos.mpr (List.ne_nil_of_mem hw)
    have : 0 < ((get_words data).count w : ℚ) / ((get_words data).length : ℚ) :=
      div_pos (by exact_mod_cast hc) (by exact_mod_cast hl)
    simp [hw, this]
  · simp [hw]

lemma weight_props (h o : ℚ) (h0 : 0 ≤ h) (o0 : 0 ≤ o) (hpos : 0 < h + o) :
    (-1 ≤ word_weight h o ∧ word_weight h o ≤ 1) ∧
      (word_weight h o = 1 ↔ 0 < h ∧ o = 0) ∧
      (word_weight h o = -1 ↔ 0 < o ∧ h = 0) := by
  have hne : h + o ≠ 0 := ne_of_gt hpos
  unfold word_weight
  refine ⟨⟨?_, ?_⟩, ?_, ?_⟩
  · rw [le_div_iff₀ hpos]
    linarith
  · rw [div_le_one hpos]
    linarith
  · rw [div_eq_iff hne]
    constructor
    · intro he
      constructor <;> linarith
    · rintro ⟨hh, rfl⟩
      ring
  · rw [div_eq_iff hne]
    constructor
    · intro he
      constructor <;> linarith
    · rintro ⟨ho, rfl⟩
      ring

/-! Claim theorems. -/

/-- C2: for every word whose combined popularity h + o is strictly positive
(absent words defaulting to popularity 0), the weight (h - o) / (h + o)
computed by the word_weights loop lies in the interval from -1 to 1; it
equals 1 exactly when the word appears only in the headers partition (h
positive and o zero) and equals -1 exactly when it appears only in the
others partition (o positive and h zero). -/
theorem claim_C2 (dataH dataO : List Row) (mh mo : List (List Char × ℚ))
    (w : List Char)
    (hmh : words_counter dataH = some mh) (hmo : words_counter dataO = some mo)
    (hpos : 0 < popGet mh w + popGet mo w) :
    (-1 ≤ word_weight (popGet mh w) (popGet mo w) ∧
      word_weight (popGet mh w) (popGet mo w) ≤ 1) ∧
    (word_weight (popGet mh w) (popGet mo w) = 1 ↔
      0 < popGet mh w ∧ popGet mo w = 0) ∧
    (word_weight (popGet mh w) (popGet mo w) = -1 ↔
      0 < popGet mo w ∧ popGet mh w = 0) := by
  rw [words_counter_eq] at hmh hmo
  injection hmh with h1
  injection hmo with h2
  subst h1
  subst h2
  exact weight_props _ _ (popGet_nonneg dataH w) (popGet_nonneg dataO w) hpos

/-- Witness for C2 at a concrete one-row pair of partitions and the word
alpha, which appears only in the headers partition. -/
theorem claim_C2_witness :
    (words_counter [⟨["alpha".toList], true⟩] =
        some (words_counter_map [⟨["alpha".toList], true⟩])) ∧
    (words_counter ([] : List Row) = some (words_counter_map ([] : List Row))) ∧
    (0 < popGet (words_counter_map [⟨["alpha".toList], true⟩]) ("alpha".toList) +
        popGet (words_counter_map ([] : List Row)) ("alpha".toList)) ∧
    ((-1 ≤ word_weight (popGet (words_counter_map [⟨["alpha".toList], true⟩]) ("alpha".toList))
        (popGet (words_counter_map ([] : List Row)) ("alpha".toList)) ∧
      word_weight (popGet (words_counter_map [⟨["alpha".toList], true⟩]) ("alpha".toList))
        (popGet (words_counter_map ([] : List Row)) ("alpha".toList)) ≤ 1) ∧
    (word_weight (popGet (words_counter_map [⟨["alpha".toList], true⟩]) ("alpha".toList))
        (popGet (words_counter_map ([] : List Row)) ("alpha".toList)) = 1 ↔
      0 < popGet (words_counter_map [⟨["alpha".toList], true⟩]) ("alpha".toList) ∧
        popGet (words_counter_map ([] : List Row)) ("alpha".toList) = 0) ∧
    (word_weight (popGet (words_counter_map [⟨["alpha".toList], true⟩]) ("alpha".toList))
        (popGet (words_counter_map ([] : List Row)) ("alpha".toList)) = -1 ↔
      0 < popGet (words_counter_map ([] : List Row)) ("alpha".toList) ∧
        popGet (words_counter_map [⟨["alpha".toList], true⟩]) ("alpha".toList) = 0)) := by
  have h1 : 0 < popGet (words_counter_map [⟨["alpha".toList], true⟩]) ("alpha".toList) :=
    (popGet_pos_iff _ _).mpr (by decide)
  have h2 : 0 ≤ popGet (words_counter_map ([] : List Row)) ("alpha".toList) :=
    popGet_nonneg _ _
  have hpos : 0 < popGet (words_counter_map [⟨["alpha".toList], true⟩]) ("alpha".toList) +
      popGet (words_counter_map ([] : List Row)) ("alpha".toList) := by linarith
  exact ⟨words_counter_eq _, words_counter_eq _, hpos,
    claim_C2 _ _ _ _ _ (words_counter_eq _) (words_counter_eq _) hpos⟩

/-- C10 counterexample: on the empty partition words_counter does not raise
a division-by-zero error (none models a raised ZeroDivisionError in the
embedding); it evaluates to the empty map. -/
theorem claim_C10_counterexample : words_counter ([] : List Row) = some [] := rfl

/-- C10 amended: for every label partition whose rows yield zero tokens,
words_counter returns the empty map by convention and does not raise; the
division sits inside the dict comprehension, which iterates zero times. -/
theorem claim_C10_amended (data : List Row) (h : get_words data = []) :
    words_counter data = some [] := by
  rw [words_counter_eq]
  simp [words_counter_map, h]

/-- Witness for C10 at a one-row partition whose only value consists of
digits, so that tokenization yields no token at all. -/
theorem claim_C10_witness :
    get_words [⟨["12".toList], true⟩] = [] ∧
      words_counter [⟨["12".toList], true⟩] = some [] :=
  ⟨by decide, claim_C10_amended _ (by decide)⟩

/-- C1 counterexample: a row with an empty values list makes the first
feature loop raise (np.vectorize on a size-0 array raises ValueError, and
the sparsity division is 0 by 0), which none models, so the feature
extractor is not raise-free on every row. -/
theorem claim_C1_counterexample : firstFeatures ([] : List (List Char)) = none := rfl

/-- C1 amended: the word-weight aggregate and date-density loops guard
their divisions with length checks and emit missing-value sentinels, but
the first feature loop (sparsity, floats_N, long_ints) is unguarded: it
raises exactly on rows whose values list is empty. -/
theorem claim_C1_amended (values : List (List Char)) :
    firstFeatures values = none ↔ values = [] := by
  unfold firstFeatures
  by_cases h : values.length = 0
  · simp [h, List.length_eq_zero.mp h]
  · have hne : values ≠ [] := by
      intro hv
      exact h (by simp [hv])
    simp [h, hne]

/-- C3 counterexample: on the single-value row 123.45 the long_ints feature
of the code evaluates to 1, while the fraction of all-digit values longer
than 4 characters, which the claim asserts it equals, evaluates to 0. -/
theorem claim_C3_counterexample :
    longIntRatioOf ["123.45".toList] = 1 ∧ longIntRatioSpec ["123.45".toList] = 0 := by
  constructor
  · unfold longIntRatioOf
    have h1 : List.countP isLongIntVal ["123.45".toList] = 1 := by decide
    have h2 : (["123.45".toList] : List (List Char)).length = 1 := by decide
    rw [h1, h2]
    norm_num
  · unfold longIntRatioSpec
    have h1 : List.countP (fun x => pyIsDigitStr x && decide (4 < x.length))
        ["123.45".toList] = 0 := by decide
    rw [h1]
    norm_num

lemma removeFirstDot_of_not_contains (x : List Char) (h : x.contains '.' = false) :
    removeFirstDot x = x := by
  induction x with
  | nil => rfl
  | cons c cs ih =>
    rw [List.contains_cons] at h
    simp only [Bool.or_eq_false_iff, beq_eq_false_iff_ne] at h
    unfold removeFirstDot
    rw [if_neg (fun hc => h.1 hc.symm)]
    rw [ih h.2]

/-- C3 amended: long_int_ratio is the fraction of values that, after the
removal of their first dot, are all-digit and whose original length exceeds
4 characters.  On dot-free values this agrees with the all-digit reading of
the claim, and the 4-character value 1990 still does not count, but values
with a decimal point such as 123.45 and 1.234 do count. -/
theorem claim_C3_amended (values : List (List Char)) (x : List Char)
    (hx : x.contains '.' = false) :
    longIntRatioOf values =
        (values.countP isLongIntVal : ℚ) / (values.length : ℚ) ∧
      (isLongIntVal x = true ↔ pyIsDigitStr x = true ∧ 4 < x.length) ∧
      isLongIntVal ("123.45".toList) = true ∧
      isLongIntVal ("1.234".toList) = true ∧
      isLongIntVal ("1990".toList) = false := by
  refine ⟨rfl, ?_, by decide, by decide, by decide⟩
  unfold isLongIntVal
  rw [removeFirstDot_of_not_contains x hx]
  simp

/-- Witness for C3 at the dot-free all-digit value 12345. -/
theorem claim_C3_witness :
    ("12345".toList.contains '.') = false ∧
    (longIntRatioOf ["12345".toList] =
        ((["12345".toList] : List (List Char)).countP isLongIntVal : ℚ) /
          ((["12345".toList] : List (List Char)).length : ℚ) ∧
      (isLongIntVal ("12345".toList) = true ↔
        pyIsDigitStr ("12345".toList) = true ∧ 4 < ("12345".toList).length) ∧
      isLongIntVal ("123.45".toList) = true ∧
      isLongIntVal ("1.234".toList) = true ∧
      isLongIntVal ("1990".toList) = false) :=
  ⟨by decide, claim_C3_amended ["12345".toList] ("12345".toList) (by decide)⟩

lemma countP_ratio_unit (p : List Char → Bool) (values : List (List Char))
    (h : values ≠ []) :
    0 ≤ (values.countP p : ℚ) / (values.length : ℚ) ∧
      (values.countP p : ℚ) / (values.length : ℚ) ≤ 1 := by
  have hl : 0 < values.length := List.length_pos.mpr h
  have hlq : (0:ℚ) < (values.length : ℚ) := by exact_mod_cast hl
  constructor
  · positivity
  · rw [div_le_one hlq]
    exact_mod_cast List.countP_le_length p

/-- C9: for every row with a nonempty values list, sparsity, float ratio
and long-int ratio all lie in the unit interval, and sparsity equals 1
exactly when every value of the row is the empty string. -/
theorem claim_C9 (values : List (List Char)) (hne : values ≠ []) :
    (0 ≤ sparsityOf values ∧ sparsityOf values ≤ 1) ∧
      (0 ≤ floatRatioOf values ∧ floatRatioOf values ≤ 1) ∧
      (0 ≤ longIntRatioOf values ∧ longIntRatioOf values ≤ 1) ∧
      (sparsityOf values = 1 ↔ ∀ v ∈ values, v = []) := by
  have hl : 0 < values.length := List.length_pos.mpr hne
  have hlq : (0:ℚ) < (values.length : ℚ) := by exact_mod_cast hl
  refine ⟨countP_ratio_unit _ _ hne, countP_ratio_unit _ _ hne,
    countP_ratio_unit _ _ hne, ?_⟩
  unfold sparsityOf
  rw [div_eq_iff (ne_of_gt hlq), one_mul, Nat.cast_inj, List.countP_eq_length]
  simp [List.isEmpty_iff]

/-- Witness for C9 at a concrete two-value row with one empty and one
nonempty value. -/
theorem claim_C9_witness :
    ([[], "ab".toList] : List (List Char)) ≠ [] ∧
    ((0 ≤ sparsityOf [[], "ab".toList] ∧ sparsityOf [[], "ab".toList] ≤ 1) ∧
      (0 ≤ floatRatioOf [[], "ab".toList] ∧ floatRatioOf [[], "ab".toList] ≤ 1) ∧
      (0 ≤ longIntRatioOf [[], "ab".toList] ∧ longIntRatioOf [[], "ab".toList] ≤ 1) ∧
      (sparsityOf [[], "ab".toList] = 1 ↔
        ∀ v ∈ ([[], "ab".toList] : List (List Char)), v = [])) :=
  ⟨by decide, claim_C9 _ (by decide)⟩

lemma sum_map_div (l : List ℚ) (c : ℚ) :
    (l.map (fun x => x / c)).sum = l.sum / c := by
  induction l with
  | nil => simp
  | cons a l ih => simp [ih, add_div]

lemma count_dedup_sum (W : List (List Char)) :
    ((W.dedup).map (fun x => W.count x)).sum = W.length := by
  have h := List.sum_map_count_dedup_eq_length W
  rw [← h]
  apply congrArg
  apply List.map_congr_left
  intro a _
  unfold List.count
  apply congrArg (fun f => List.countP f W) ?_
  funext y
  apply Bool.eq_iff_iff.mpr
  constructor
  · intro hb
    have hy : y = a := eq_of_beq hb
    subst hy
    exact @beq_self_eq_true _ instBEqOfDecidableEq _ y
  · intro hb
    have hy : y = a := eq_of_beq hb
    subst hy
    exact @beq_self_eq_true _ List.instBEq _ y

/-- C4: for every partition whose rows yield at least one token, the values
of the popularity map built by words_counter sum to exactly 1 as rationals,
and each value is the occurrence count of its word, repetitions included,
divided by the total token count. -/
theorem claim_C4 (data : List Row) (m : List (List Char × ℚ))
    (hm : words_counter data = some m) (hne : get_words data ≠ []) :
    (m.map Prod.snd).sum = 1 ∧
      ∀ p ∈ m,
        p.2 = ((get_words data).count p.1 : ℚ) / ((get_words data).length : ℚ) := by
  rw [words_counter_eq] at hm
  injection hm with hm1
  subst hm1
  have hlen : (get_words data).length ≠ 0 := by
    simpa [List.length_eq_zero] using hne
  have hlenq : ((get_words data).length : ℚ) ≠ 0 := by exact_mod_cast hlen
  constructor
  · unfold words_counter_map
    rw [List.map_map]
    have h2 : (Prod.snd ∘ fun x : List Char =>
        (x, ((get_words data).count x : ℚ) / ((get_words data).length : ℚ))) =
        ((fun q : ℚ => q / ((get_words data).length : ℚ)) ∘
          (fun x : List Char => ((get_words data).count x : ℚ))) := rfl
    rw [h2, ← List.map_map, sum_map_div]
    have h3 : (((get_words data).dedup.map
        (fun x : List Char => ((get_words data).count x : ℚ))).sum) =
        ((get_words data).length : ℚ) := by
      rw [show (fun x : List Char => ((get_words data).count x : ℚ)) =
          ((Nat.cast : ℕ → ℚ) ∘ fun x : List Char => (get_words data).count x)
          from rfl]
      rw [← List.map_map, ← Nat.cast_list_sum, count_dedup_sum]
    rw [h3, div_self hlenq]
  · intro p hp
    unfold words_counter_map at hp
    rw [List.mem_map] at hp
    obtain ⟨x, hx, rfl⟩ := hp
    rfl

/-- Witness for C4 at a one-row partition carrying the tokens a, b, a. -/
theorem claim_C4_witness :
    (words_counter [⟨["a b a".toList], true⟩] =
        some (words_counter_map [⟨["a b a".toList], true⟩])) ∧
    get_words [⟨["a b a".toList], true⟩] ≠ [] ∧
    (((words_counter_map [⟨["a b a".toList], true⟩]).map Prod.snd).sum = 1 ∧
      ∀ p ∈ words_counter_map [⟨["a b a".toList], true⟩],
        p.2 = ((get_words [⟨["a b a".toList], true⟩]).count p.1 : ℚ) /
          ((get_words [⟨["a b a".toList], true⟩]).length : ℚ)) :=
  ⟨words_counter_eq _, by decide,
    claim_C4 _ _ (words_counter_eq _) (by decide)⟩

lemma mem_get_words_iff (data : List Row) (w : List Char) :
    w ∈ get_words data ↔ ∃ r ∈ data, w ∈ words_from_values r.values := by
  unfold get_words
  rw [List.mem_flatten]
  constructor
  · rintro ⟨l, hl, hwl⟩
    rw [List.mem_map] at hl
    obtain ⟨r, hr, rfl⟩ := hl
    exact ⟨r, hr, hwl⟩
  · rintro ⟨r, hr, hwr⟩
    exact ⟨words_from_values r.values, List.mem_map.mpr ⟨r, hr, rfl⟩, hwr⟩

/-- C5: every word of the universal word set all_words, built from the full
sampled dataset, has header popularity plus other popularity strictly
positive when the dataset is partitioned by the boolean label, so the
division of the word_weights loop never divides by zero. -/
theorem claim_C5 (data : List Row) (mh mo : List (List Char × ℚ))
    (hmh : words_counter (data.filter (fun r => r.type)) = some mh)
    (hmo : words_counter (data.filter (fun r => !r.type)) = some mo)
    (w : List Char) (hw : w ∈ all_words data) :
    0 < popGet mh w + popGet mo w := by
  rw [words_counter_eq] at hmh hmo
  injection hmh with h1
  injection hmo with h2
  subst h1
  subst h2
  have hnn1 := popGet_nonneg (data.filter (fun r => r.type)) w
  have hnn2 := popGet_nonneg (data.filter (fun r => !r.type)) w
  unfold all_words at hw
  rw [List.mem_dedup, mem_get_words_iff] at hw
  obtain ⟨r, hr, hwr⟩ := hw
  by_cases ht : r.type
  · have hmem : w ∈ get_words (data.filter (fun r => r.type)) :=
      (mem_get_words_iff _ _).mpr ⟨r, List.mem_filter.mpr ⟨hr, by simp [ht]⟩, hwr⟩
    have hpos := (popGet_pos_iff _ _).mpr hmem
    linarith
  · have hmem : w ∈ get_words (data.filter (fun r => !r.type)) :=
      (mem_get_words_iff _ _).mpr ⟨r, List.mem_filter.mpr ⟨hr, by simp [ht]⟩, hwr⟩
    have hpos := (popGet_pos_iff _ _).mpr hmem
    linarith

/-- Witness for C5 at a two-row dataset with one header row and one other
row, at the word coming from the header row. -/
theorem claim_C5_witness :
    "head".toList ∈ all_words [⟨["head".toList], true⟩, ⟨["body".toList], false⟩] ∧
    0 < popGet (words_counter_map
          (([⟨["head".toList], true⟩, ⟨["body".toList], false⟩] : List Row).filter
            (fun r => r.type))) ("head".toList) +
        popGet (words_counter_map
          (([⟨["head".toList], true⟩, ⟨["body".toList], false⟩] : List Row).filter
            (fun r => !r.type))) ("head".toList) :=
  ⟨by decide,
    claim_C5 _ _ _ (words_counter_eq _) (words_counter_eq _) _ (by decide)⟩

lemma toLower_idem (c : Char) : c.toLower.toLower = c.toLower := by
  unfold Char.toLower
  by_cases h : c.toNat >= 65 ∧ c.toNat <= 90
  · have hv : (c.toNat + 32).isValidChar := Or.inl (by omega)
    have ht : (Char.ofNat (c.toNat + 32)).toNat = c.toNat + 32 := by
      simp [Char.ofNat, hv]
      rfl
    simp [h, ht]
    omega
  · simp [h]

lemma pySplitAll_cons (a : Char) (s : List Char) :
    pySplitAll (a :: s) = splitStep a (pySplitAll s) := rfl

lemma pySplitAll_ne_nil (s : List Char) : pySplitAll s ≠ [] := by
  induction s with
  | nil => simp [pySplitAll]
  | cons c cs ih =>
    rw [pySplitAll_cons]
    unfold splitStep
    by_cases h : pyIsSpace c = true
    · simp [h]
    · rw [if_neg h]
      cases pySplitAll cs with
      | nil => simp
      | cons t ts => simp

lemma pySplitAll_chars (s : List Char) :
    ∀ u ∈ pySplitAll s, ∀ c ∈ u, pyIsSpace c = false ∧ c ∈ s := by
  induction s with
  | nil =>
    intro u hu c hc
    simp only [pySplitAll, List.foldr_nil, List.mem_singleton] at hu
    subst hu
    simp at hc
  | cons a s ih =>
    intro u hu c hc
    rw [pySplitAll_cons] at hu
    unfold splitStep at hu
    by_cases h : pyIsSpace a = true
    · rw [if_pos h] at hu
      rcases List.mem_cons.mp hu with rfl | hu2
      · simp at hc
      · obtain ⟨hns, hmem⟩ := ih u hu2 c hc
        exact ⟨hns, List.mem_cons_of_mem _ hmem⟩
    · rw [if_neg h] at hu
      have ha : pyIsSpace a = false := by simpa using h
      cases hacc : pySplitAll s with
      | nil => exact absurd hacc (pySplitAll_ne_nil s)
      | cons t ts =>
        rw [hacc] at hu
        rcases List.mem_cons.mp hu with rfl | hu2
        · rcases List.mem_cons.mp hc with rfl | hc2
          · exact ⟨ha, List.mem_cons_self _ _⟩
          · have htm : t ∈ pySplitAll s := by
              rw [hacc]
              exact List.mem_cons_self t ts
            obtain ⟨hns, hmem⟩ := ih t htm c hc2
            exact ⟨hns, List.mem_cons_of_mem _ hmem⟩
        · have hum : u ∈ pySplitAll s := by
            rw [hacc]
            exact List.mem_cons_of_mem _ hu2
          obtain ⟨hns, hmem⟩ := ih u hum c hc
          exact ⟨hns, List.mem_cons_of_mem _ hmem⟩

lemma pySplitAll_no_space (s : List Char) (hne : s ≠ [])
    (hall : ∀ c ∈ s, pyIsSpace c = false) : pySplitAll s = [s] := by
  induction s with
  | nil => exact absurd rfl hne
  | cons a s ih =>
    rw [pySplitAll_cons]
    have ha : pyIsSpace a = false := hall a (List.mem_cons_self a s)
    unfold splitStep
    rw [if_neg (by simp [ha])]
    cases hs : s with
    | nil =>
      subst hs
      rfl
    | cons b s2 =>
      have hne2 : s ≠ [] := by
        rw [hs]
        simp
      have hall2 : ∀ c ∈ s, pyIsSpace c = false :=
        fun c hc => hall c (List.mem_cons_of_mem a hc)
      rw [← hs, ih hne2 hall2]

lemma mem_pySplit (s t : List Char) (ht : t ∈ pySplit s) :
    t ≠ [] ∧ ∀ c ∈ t, pyIsSpace c = false ∧ c ∈ s := by
  unfold pySplit at ht
  rw [List.mem_filter] at ht
  obtain ⟨h1, h2⟩ := ht
  refine ⟨?_, fun c hc => pySplitAll_chars s t h1 c hc⟩
  simpa [List.isEmpty_iff] using h2

lemma pySplit_no_space (t : List Char) (hne : t ≠ [])
    (hall : ∀ c ∈ t, pyIsSpace c = false) : pySplit t = [t] := by
  unfold pySplit
  rw [pySplitAll_no_space t hne hall]
  have hemp : t.isEmpty = false := by simpa [List.isEmpty_iff] using hne
  simp [List.filter, hemp]

lemma words_from_values_token (values : List (List Char)) (t : List Char)
    (ht : t ∈ words_from_values values) :
    t ≠ [] ∧ hasDigit t = false ∧
      ∀ c ∈ t, pyIsSpace c = false ∧ c ∉ punctList ∧ c.toLower = c := by
  unfold words_from_values at ht
  rw [List.mem_filter] at ht
  obtain ⟨hmem, hp⟩ := ht
  rw [Bool.and_eq_true] at hp
  have hne : t ≠ [] := by simpa [List.isEmpty_iff] using hp.1
  have hnd : hasDigit t = false := by simpa using hp.2
  rw [List.mem_flatten] at hmem
  obtain ⟨l, hl, htl⟩ := hmem
  rw [List.mem_map] at hl
  obtain ⟨x, hx, rfl⟩ := hl
  obtain ⟨-, hchars⟩ := mem_pySplit _ t htl
  refine ⟨hne, hnd, fun c hc => ?_⟩
  obtain ⟨hns, hmem2⟩ := hchars c hc
  rw [List.mem_map] at hmem2
  obtain ⟨d, hd, rfl⟩ := hmem2
  by_cases hdp : d ∈ punctList
  · exfalso
    have hsp : punctRemove d = ' ' := by simp [punctRemove, hdp]
    rw [hsp] at hns
    simp [pyIsSpace] at hns
  · have hpr : punctRemove d = d := by simp [punctRemove, hdp]
    rw [hpr] at hns ⊢
    rw [List.mem_map] at hd
    obtain ⟨e, he, rfl⟩ := hd
    exact ⟨hns, hdp, toLower_idem e⟩

/-- C7: every token produced by words_from_values contains no decimal digit
character and none of the configured punctuation characters, and the empty
input yields the empty output. -/
theorem claim_C7 (values : List (List Char)) :
    (∀ t ∈ words_from_values values, ∀ c ∈ t,
      c.isDigit = false ∧ c ∉ punctList) ∧
      words_from_values [] = [] := by
  refine ⟨fun t ht c hc => ?_, rfl⟩
  obtain ⟨hne, hnd, hchars⟩ := words_from_values_token values t ht
  obtain ⟨hns, hnp, hlow⟩ := hchars c hc
  refine ⟨?_, hnp⟩
  by_contra hdig
  rw [Bool.not_eq_false] at hdig
  have hany : hasDigit t = true := by
    unfold hasDigit
    rw [List.any_eq_true]
    exact ⟨c, hc, hdig⟩
  rw [hany] at hnd
  exact Bool.noConfusion hnd

/-- Witness for C7 at the concrete input with one value holding two words,
instantiated at its first token and that token's first character. -/
theorem claim_C7_witness :
    ("ab".toList ∈ words_from_values ["ab cd".toList]) ∧
      ('a' ∈ "ab".toList) ∧
      (Char.isDigit 'a' = false ∧ 'a' ∉ punctList) :=
  ⟨by decide, by decide,
    (claim_C7 ["ab cd".toList]).1 ("ab".toList) (by decide) 'a' (by decide)⟩

lemma flatten_singletons (l : List (List Char)) :
    (l.map (fun t => [t])).flatten = l := by
  induction l with
  | nil => rfl
  | cons a l ih => simp [ih]

/-- C8: the tokenizer is idempotent; applying words_from_values to its own
output, each output token treated as a value string, returns that output
unchanged. -/
theorem claim_C8 (values : List (List Char)) :
    words_from_values (words_from_values values) = words_from_values values := by
  have hmap : (words_from_values values).map
      (fun x => pySplit ((x.map Char.toLower).map punctRemove)) =
      (words_from_values values).map (fun t => [t]) := by
    apply List.map_congr_left
    intro t ht
    obtain ⟨hne, hnd, hchars⟩ := words_from_values_token values t ht
    have h1 : t.map Char.toLower = t := by
      have hcongr := List.map_congr_left (l := t) (f := Char.toLower) (g := id)
        (fun c hc => (hchars c hc).2.2)
      simpa using hcongr
    have h2 : t.map punctRemove = t := by
      have hcongr := List.map_congr_left (l := t) (f := punctRemove) (g := id)
        (fun c hc => by simp [punctRemove, (hchars c hc).2.1])
      simpa using hcongr
    rw [h1, h2]
    exact pySplit_no_space t hne (fun c hc => (hchars c hc).1)
  conv_lhs => rw [words_from_values]
  rw [hmap, flatten_singletons]
  apply List.filter_eq_self.mpr
  intro a ha
  obtain ⟨hne, hnd, -⟩ := words_from_values_token values a ha
  simp [List.isEmpty_iff, hne, hnd]

/-- C6: the word-weight aggregate features are the missing-value sentinel
exactly when the tokenized word list of the row is empty, and the year and
dd/mm density features are the missing-value sentinel exactly when the
space-joined values form the empty string; otherwise each density equals
its pattern match count divided by the joined string length. -/
theorem claim_C6 (W : List (List Char × ℚ)) (values : List (List Char)) :
    (wordWeightFeatures W values = none ↔ words_from_values values = []) ∧
      (dateFeatures values = none ↔ List.intercalate [' '] values = []) ∧
      (List.intercalate [' '] values ≠ [] →
        dateFeatures values =
          some ((yearCount (List.intercalate [' '] values) : ℚ) /
              ((List.intercalate [' '] values).length : ℚ),
            (ddmmCount (List.intercalate [' '] values) : ℚ) /
              ((List.intercalate [' '] values).length : ℚ))) := by
  refine ⟨?_, ?_, ?_⟩
  · simp only [wordWeightFeatures]
    by_cases h : words_from_values values = []
    · simp [h]
    · have hl : 0 <
          ((words_from_values values).map (fun word => popGet W word)).length := by
        rw [List.length_map]
        exact List.length_pos.mpr h
      simp [hl, h]
  · simp only [dateFeatures]
    by_cases h : List.intercalate [' '] values = []
    · simp [h]
    · have hl : 0 < (List.intercalate [' '] values).length := List.length_pos.mpr h
      simp [hl, h]
  · intro h
    have hl : 0 < (List.intercalate [' '] values).length := List.length_pos.mpr h
    simp [dateFeatures, hl]

/-- Witness for C6 at a concrete one-value row whose space-joined string is
nonempty, firing the density clause of the theorem. -/
theorem claim_C6_witness :
    (List.intercalate [' '] ["date".toList] ≠ []) ∧
      dateFeatures ["date".toList] =
        some ((yearCount (List.intercalate [' '] ["date".toList]) : ℚ) /
            ((List.intercalate [' '] ["date".toList]).length : ℚ),
          (ddmmCount (List.intercalate [' '] ["date".toList]) : ℚ) /
            ((List.intercalate [' '] ["date".toList]).length : ℚ)) :=
  ⟨by decide, (claim_C6 [] ["date".toList]).2.2 (by decide)⟩
